import Mathlib

/-!
Verification of the furniture-layout optimizer (genetic algorithm).

Shallow embedding of `src/room.py` (the `Furniture` entity) and
`src/optimizer.py` (the `GeneticLayoutOptimizer` class): fitness
evaluation, population operators and the generational loop.

Modelling conventions:
* Python floats are modelled as exact rationals (`ℚ`).
* Python `int(x)` (truncation toward zero) is `pythonInt`.
* The ambient random source (`random.random`, `random.uniform`,
  `random.sample`) is modelled as an explicit oracle supplying a stream of
  values in `[0,1)` and, for `sample`, a duplicate-free index list; a
  single counter is threaded through all draws via `StateM ℕ`.
* Python calls that raise (`np.argmax` on an empty array, `random.sample`
  with `k > n`, out-of-range indexing in the elitism loop, `np.zeros` with
  a negative dimension) are modelled by `Option`, `none` meaning the run
  raised.
-/

/-- `src/room.py`, class `Furniture`: name, footprint, movability flag,
position and orientation (degrees). -/
structure Furniture where
  name : String
  width : ℚ
  length : ℚ
  movable : Bool
  x : ℚ
  y : ℚ
  orientation : ℕ
  deriving DecidableEq, Repr

/-- `Furniture.set_position(x, y)` (the `orientation=None` default case,
the only form the optimizer uses). -/
def set_position (f : Furniture) (x y : ℚ) : Furniture :=
  { f with x := x, y := y }

/-- `Furniture.rotate` (`src/room.py` lines 81-86): add 90° modulo 360 and
swap the stored width/length exactly when the *new* orientation is 90 or
270. -/
def rotate (f : Furniture) : Furniture :=
  let o := (f.orientation + 90) % 360
  if o = 90 ∨ o = 270 then
    { f with orientation := o, width := f.length, length := f.width }
  else
    { f with orientation := o }

/-- `k` successive calls of `Furniture.rotate`. -/
def rotateIter : ℕ → Furniture → Furniture
  | 0, f => f
  | k + 1, f => rotate (rotateIter k f)

/-- Closed form for iterated rotation starting from orientation 0: the
stored dimensions are swapped exactly when `k % 4 ∈ {1, 2}` (that is, at
orientations 90 and 180), and the orientation is `90 * (k % 4)`. -/
theorem rotateIter_closed_form (nm : String) (w l : ℚ) (mv : Bool) (x y : ℚ)
    (k : ℕ) :
    rotateIter k ⟨nm, w, l, mv, x, y, 0⟩ =
      ⟨nm, if k % 4 = 1 ∨ k % 4 = 2 then l else w,
        if k % 4 = 1 ∨ k % 4 = 2 then w else l, mv, x, y, 90 * (k % 4)⟩ := by
  induction k with
  | zero => simp [rotateIter]
  | succ k ih =>
    rw [rotateIter, ih]
    have h4 : k % 4 = 0 ∨ k % 4 = 1 ∨ k % 4 = 2 ∨ k % 4 = 3 := by omega
    rcases h4 with h | h | h | h <;>
      · have hs : (k + 1) % 4 = (k % 4 + 1) % 4 := by omega
        simp only [h, hs, rotate]
        norm_num

/-- C2: rotating a furniture item four times restores its original stored
width, length and orientation (indeed the whole record), for every
starting orientation in {0, 90, 180, 270}. -/
theorem rotate_four_times_id (f : Furniture)
    (h : f.orientation = 0 ∨ f.orientation = 90 ∨ f.orientation = 180 ∨
      f.orientation = 270) :
    rotate (rotate (rotate (rotate f))) = f := by
  obtain ⟨nm, w, l, mv, x, y, o⟩ := f
  simp only at h
  rcases h with h | h | h | h <;> subst h <;> simp [rotate]

/-- Witness for C2 at a concrete item. -/
theorem rotate_four_times_id_witness :
    rotate (rotate (rotate (rotate ⟨"desk", 1, 2, true, 3, 4, 90⟩))) =
      (⟨"desk", 1, 2, true, 3, 4, 90⟩ : Furniture) :=
  rotate_four_times_id ⟨"desk", 1, 2, true, 3, 4, 90⟩ (Or.inr (Or.inl rfl))

/-- C1 is false on the code: it is not the case that, along every rotation
sequence from orientation 0, the stored dimension pair is the base pair
swapped exactly when the orientation is 90 or 270.  After two `rotate`
calls on a 1×2 item the orientation is 180 (not 90/270) yet the dimensions
are still swapped. -/
theorem rotate_swap_iff_90_270_false :
    ¬ (∀ (nm : String) (w l : ℚ) (mv : Bool) (x y : ℚ) (k : ℕ),
      ((rotateIter k ⟨nm, w, l, mv, x, y, 0⟩).width,
        (rotateIter k ⟨nm, w, l, mv, x, y, 0⟩).length) =
        if (rotateIter k ⟨nm, w, l, mv, x, y, 0⟩).orientation = 90 ∨
            (rotateIter k ⟨nm, w, l, mv, x, y, 0⟩).orientation = 270
        then (l, w) else (w, l)) := by
  intro h
  exact absurd (h "t" 1 2 true 0 0 2) (by decide)

/-- C1 amended: for an item rotated `k` times from orientation 0, the
stored dimension pair is the base pair swapped exactly when the
orientation is 90 or 180 (not 90 or 270); the pair is still a pure
function of the orientation alone on these reachable states, and the
orientation is `90 * (k % 4)`. -/
theorem rotate_swap_iff_90_180 (nm : String) (w l : ℚ) (mv : Bool)
    (x y : ℚ) (k : ℕ) :
    ((rotateIter k ⟨nm, w, l, mv, x, y, 0⟩).width,
      (rotateIter k ⟨nm, w, l, mv, x, y, 0⟩).length) =
      (if (rotateIter k ⟨nm, w, l, mv, x, y, 0⟩).orientation = 90 ∨
          (rotateIter k ⟨nm, w, l, mv, x, y, 0⟩).orientation = 180
        then (l, w) else (w, l)) ∧
    (rotateIter k ⟨nm, w, l, mv, x, y, 0⟩).orientation = 90 * (k % 4) := by
  rw [rotateIter_closed_form]
  have h4 : k % 4 = 0 ∨ k % 4 = 1 ∨ k % 4 = 2 ∨ k % 4 = 3 := by omega
  rcases h4 with h | h | h | h <;> simp [h]

/-- Python `int(x)` on a float: truncation toward zero, on exact
rationals.  For `q ≥ 0` this is the floor `num.fdiv den`; for `q < 0` it
is minus the floor of `-q`. -/
def pythonInt (q : ℚ) : ℤ :=
  if 0 ≤ q then q.num.fdiv q.den else -((-q.num).fdiv q.den)

/-- A fixed element (obstacle) dictionary as consumed by the optimizer:
keys `x`, `y`, `width`, `length`. -/
structure FixedElement where
  x : ℚ
  y : ℚ
  width : ℚ
  length : ℚ
  deriving DecidableEq, Repr

/-- `src/optimizer.py`, `GeneticLayoutOptimizer.__init__`: the stored
configuration.  The constructor performs no validation. -/
structure GeneticLayoutOptimizer where
  room_length : ℚ
  room_width : ℚ
  furniture_list : List Furniture
  fixed_elements : List FixedElement
  population_size : ℕ
  generations : ℕ
  mutation_rate : ℚ
  elitism_count : ℕ
  deriving Repr

/-- The furniture/obstacle intersection test of `calculate_fitness`
(lines 59-62): strict inequalities on both axes; the furniture x-extent
is `length`, its y-extent is `width`. -/
def overlapsFE (f : Furniture) (e : FixedElement) : Bool :=
  decide (f.x < e.x + e.width) && decide (f.x + f.length > e.x) &&
    decide (f.y < e.y + e.length) && decide (f.y + f.width > e.y)

/-- The furniture/furniture intersection test of `calculate_fitness`
(lines 71-74). -/
def overlapsFF (f1 f2 : Furniture) : Bool :=
  decide (f1.x < f2.x + f2.length) && decide (f1.x + f1.length > f2.x) &&
    decide (f1.y < f2.y + f2.width) && decide (f1.y + f1.width > f2.y)

/-- Total penalty of the obstacle-overlap double loop (lines 57-63):
20 per overlapping (furniture, element) pair. -/
def obstaclePenalty (opt : GeneticLayoutOptimizer) (ind : List Furniture) : ℚ :=
  (ind.map (fun f =>
    (opt.fixed_elements.map (fun e => if overlapsFE f e then (20 : ℚ) else 0)).sum)).sum

/-- Total penalty of the furniture-pair double loop (lines 66-75): 15 per
overlapping unordered pair `i < j`, iterated as head-against-rest. -/
def pairPenalty : List Furniture → ℚ
  | [] => 0
  | f :: rest =>
    (rest.map (fun g => if overlapsFF f g then (15 : ℚ) else 0)).sum + pairPenalty rest

/-- Number of overlapping (furniture, element) pairs. -/
def obstacleOverlapCount (opt : GeneticLayoutOptimizer) (ind : List Furniture) : ℕ :=
  (ind.map (fun f => opt.fixed_elements.countP (fun e => overlapsFE f e))).sum

/-- Number of overlapping unordered furniture pairs. -/
def pairOverlapCount : List Furniture → ℕ
  | [] => 0
  | f :: rest => rest.countP (fun g => overlapsFF f g) + pairOverlapCount rest

/-- Wall-proximity reward loop (lines 78-88): +5 per item whose minimal
clearance to the four walls is below 0.1. -/
def wallBonus (opt : GeneticLayoutOptimizer) (ind : List Furniture) : ℚ :=
  (ind.map (fun f =>
    if min (min f.x (opt.room_length - (f.x + f.length)))
        (min f.y (opt.room_width - (f.y + f.width))) < 1 / 10
    then (5 : ℚ) else 0)).sum

/-- Normalization of one endpoint of a Python slice `a:b` over an axis of
size `n`: a negative index counts from the end, then the result is
clamped into `[0, n]`. -/
def sliceIdx (n : ℕ) (v : ℤ) : ℕ :=
  if v < 0 then ((n : ℤ) + v).toNat else min v.toNat n

/-- Membership of cell index `i` in the Python slice `a:b` of an axis of
size `n`. -/
def inSlice (n : ℕ) (a b : ℤ) (i : ℕ) : Bool :=
  decide (sliceIdx n a ≤ i) && decide (i < sliceIdx n b)

/-- Occupancy of grid cell `(r, c)` after the two rasterization loops of
`calculate_fitness` (lines 96-109, `grid_size = 20`): a cell is occupied
iff some fixed element or some furniture slice assignment wrote to it.
Rows span `y .. y+length` for elements but `y .. y+width` for furniture,
columns `x .. x+width` for elements but `x .. x+length` for furniture,
exactly as in the source. -/
def cellOccupied (opt : GeneticLayoutOptimizer) (ind : List Furniture)
    (h w r c : ℕ) : Bool :=
  opt.fixed_elements.any (fun e =>
    inSlice h (pythonInt (e.y * 20)) (pythonInt ((e.y + e.length) * 20)) r &&
    inSlice w (pythonInt (e.x * 20)) (pythonInt ((e.x + e.width) * 20)) c) ||
  ind.any (fun f =>
    inSlice h (pythonInt (f.y * 20)) (pythonInt ((f.y + f.width) * 20)) r &&
    inSlice w (pythonInt (f.x * 20)) (pythonInt ((f.x + f.length) * 20)) c)

/-- `np.sum(grid == 0)`: number of cells never written to. -/
def emptyCells (opt : GeneticLayoutOptimizer) (ind : List Furniture)
    (h w : ℕ) : ℕ :=
  ((List.range h).map (fun r =>
    ((List.range w).filter (fun c => ! cellOccupied opt ind h w r c)).length)).sum

/-- CPython `max(0, s)`: returns `s` exactly when `s > 0`. -/
def pymax0 (q : ℚ) : ℚ := if 0 < q then q else 0

/-- The clamp never returns a negative value. -/
theorem pymax0_nonneg (q : ℚ) : 0 ≤ pymax0 q := by
  unfold pymax0
  split
  · linarith
  · exact le_rfl

/-- The clamp only raises the value. -/
theorem le_pymax0 (q : ℚ) : q ≤ pymax0 q := by
  unfold pymax0
  split
  · exact le_rfl
  · linarith

/-- `GeneticLayoutOptimizer.calculate_fitness` (lines 51-121).
`none` models the `ValueError` of `np.zeros` on a negative dimension.
When the grid has zero cells, `empty_cells / total_cells` is `0/0 = nan`
in numpy, the subsequent `score += nan * 30` poisons the score and
CPython's `max(0, nan)` returns its first argument `0`; that branch is
therefore the constant `0`. -/
def calculate_fitness (opt : GeneticLayoutOptimizer) (ind : List Furniture) :
    Option ℚ :=
  let base : ℚ := 100 - obstaclePenalty opt ind - pairPenalty ind + wallBonus opt ind
  let hz := pythonInt (opt.room_width * 20)
  let wz := pythonInt (opt.room_length * 20)
  if hz < 0 ∨ wz < 0 then none
  else
    let h := hz.toNat
    let w := wz.toNat
    if h * w = 0 then some 0
    else
      some (pymax0 (base +
        ((emptyCells opt ind h w : ℚ) / ((h * w : ℕ) : ℚ)) * 30))

/-- A guarded constant sums to the constant times the count of the guard. -/
theorem sum_ite_eq_mul_countP {α : Type} (c : ℚ) (p : α → Bool) (l : List α) :
    (l.map (fun a => if p a then c else 0)).sum = c * l.countP p := by
  induction l with
  | nil => simp
  | cons a t ih =>
    by_cases h : p a <;>
      simp [List.countP_cons, ih, h, mul_add] <;> ring

/-- The obstacle-overlap loop subtracts exactly 20 per overlapping pair. -/
theorem obstaclePenalty_eq (opt : GeneticLayoutOptimizer) (ind : List Furniture) :
    obstaclePenalty opt ind = 20 * obstacleOverlapCount opt ind := by
  unfold obstaclePenalty obstacleOverlapCount
  induction ind with
  | nil => simp
  | cons f t ih =>
    simp only [List.map_cons, List.sum_cons, Nat.cast_add]
    rw [ih, sum_ite_eq_mul_countP]
    ring

/-- The furniture-pair loop subtracts exactly 15 per overlapping pair. -/
theorem pairPenalty_eq (ind : List Furniture) :
    pairPenalty ind = 15 * pairOverlapCount ind := by
  induction ind with
  | nil => simp [pairPenalty, pairOverlapCount]
  | cons f t ih =>
    unfold pairPenalty pairOverlapCount
    rw [ih, sum_ite_eq_mul_countP]
    push_cast
    ring

/-- The furniture/furniture test holds exactly when all four strict
inequalities of the half-open intersection test hold. -/
theorem overlapsFF_true_iff (f g : Furniture) :
    overlapsFF f g = true ↔
      (f.x < g.x + g.length ∧ f.x + f.length > g.x ∧
        f.y < g.y + g.width ∧ f.y + f.width > g.y) := by
  simp [overlapsFF, and_assoc]

/-- The furniture/obstacle test holds exactly when all four strict
inequalities of the half-open intersection test hold. -/
theorem overlapsFE_true_iff (f : Furniture) (e : FixedElement) :
    overlapsFE f e = true ↔
      (f.x < e.x + e.width ∧ f.x + f.length > e.x ∧
        f.y < e.y + e.length ∧ f.y + f.width > e.y) := by
  simp [overlapsFE, and_assoc]

/-- C5: the intersection test is the half-open one (so edge-touching
rectangles do not overlap), each overlapping (item, obstacle) pair
subtracts exactly 20, each overlapping unordered item pair exactly 15,
and the penalties stack linearly and uncapped with the pair counts. -/
theorem fitness_overlap_penalties (opt : GeneticLayoutOptimizer)
    (ind : List Furniture) :
    obstaclePenalty opt ind = 20 * obstacleOverlapCount opt ind ∧
    pairPenalty ind = 15 * pairOverlapCount ind ∧
    (∀ f g : Furniture, overlapsFF f g = true ↔
      (f.x < g.x + g.length ∧ f.x + f.length > g.x ∧
        f.y < g.y + g.width ∧ f.y + f.width > g.y)) ∧
    (∀ (f : Furniture) (e : FixedElement), overlapsFE f e = true ↔
      (f.x < e.x + e.width ∧ f.x + f.length > e.x ∧
        f.y < e.y + e.length ∧ f.y + f.width > e.y)) ∧
    (∀ (f : Furniture) (e : FixedElement), f.x + f.length = e.x →
      overlapsFE f e = false) ∧
    (∀ f g : Furniture, f.x + f.length = g.x → overlapsFF f g = false) :=
  ⟨obstaclePenalty_eq opt ind, pairPenalty_eq ind, overlapsFF_true_iff,
    overlapsFE_true_iff,
    fun f e h => by simp [overlapsFE, h],
    fun f g h => by simp [overlapsFF, h]⟩

/-- Witness for C5 at a concrete arrangement: two unit squares side by
side touch edge-to-edge and are not penalized. -/
theorem fitness_overlap_penalties_witness :
    overlapsFF ⟨"a", 1, 1, true, 0, 0, 0⟩ ⟨"b", 1, 1, true, 1, 0, 0⟩ = false ∧
    pairPenalty [⟨"a", 1, 1, true, 0, 0, 0⟩, ⟨"b", 1, 1, true, 1, 0, 0⟩] =
      15 * pairOverlapCount
        [⟨"a", 1, 1, true, 0, 0, 0⟩, ⟨"b", 1, 1, true, 1, 0, 0⟩] :=
  ⟨(fitness_overlap_penalties ⟨1, 1, [], [], 0, 0, 0, 0⟩ []).2.2.2.2.2
      ⟨"a", 1, 1, true, 0, 0, 0⟩ ⟨"b", 1, 1, true, 1, 0, 0⟩ (by norm_num),
    (fitness_overlap_penalties ⟨1, 1, [], [], 0, 0, 0, 0⟩
      [⟨"a", 1, 1, true, 0, 0, 0⟩, ⟨"b", 1, 1, true, 1, 0, 0⟩]).2.1⟩

/-- `int()` of a natural number is itself. -/
theorem pythonInt_natCast (m : ℕ) : pythonInt (m : ℚ) = m := by
  unfold pythonInt
  rw [if_pos (by positivity)]
  simp [Int.fdiv_one]

/-- `pairPenalty` vanishes on pairwise non-overlapping arrangements. -/
theorem pairPenalty_of_no_overlap (l : List Furniture)
    (h : l.Pairwise (fun f g => overlapsFF f g = false)) : pairPenalty l = 0 := by
  induction l with
  | nil => rfl
  | cons f t ih =>
    rw [List.pairwise_cons] at h
    unfold pairPenalty
    rw [ih h.2, List.map_congr_left (fun g hg => by rw [h.1 g hg] : ∀ g ∈ t,
      (if overlapsFF f g then (15 : ℚ) else 0) = if false then (15 : ℚ) else 0)]
    simp [List.map_const', List.sum_replicate]

/-- `obstaclePenalty` vanishes when there are no fixed elements. -/
theorem obstaclePenalty_of_no_elems (opt : GeneticLayoutOptimizer)
    (ind : List Furniture) (h : opt.fixed_elements = []) :
    obstaclePenalty opt ind = 0 := by
  unfold obstaclePenalty
  rw [h]
  induction ind with
  | nil => rfl
  | cons f t ih => simpa using ih

/-- A family of arrangements witnessing unboundedness: the `k`-th item is
a 0.5 × 0.5 square at `(k, 0)`, flush against the near wall. -/
def rowItem (k : ℕ) : Furniture := ⟨"box", 1 / 2, 1 / 2, true, (k : ℚ), 0, 0⟩

/-- `n` side-by-side wall-hugging squares. -/
def rowArrangement (n : ℕ) : List Furniture := (List.range n).map rowItem

/-- A room of length `n` and width 1 with no obstacles. -/
def rowConfig (n : ℕ) : GeneticLayoutOptimizer :=
  ⟨(n : ℚ), 1, [], [], 0, 0, 0, 0⟩

/-- The row arrangement has no overlapping pair. -/
theorem rowArrangement_pairwise (n : ℕ) :
    (rowArrangement n).Pairwise (fun f g => overlapsFF f g = false) := by
  unfold rowArrangement
  refine (List.pairwise_map).mpr ((List.pairwise_lt_range n).imp ?_)
  intro a b hab
  rw [Bool.eq_false_iff]
  intro hcon
  rw [overlapsFF_true_iff] at hcon
  have h2 := hcon.2.1
  simp only [rowItem] at h2
  have hc : (a : ℚ) + 1 ≤ (b : ℚ) := by exact_mod_cast hab
  linarith

/-- Every item of the row arrangement earns the wall bonus. -/
theorem rowArrangement_wallBonus (n : ℕ) :
    wallBonus (rowConfig n) (rowArrangement n) = 5 * n := by
  unfold wallBonus
  rw [List.map_congr_left (fun f hf => ?_ : ∀ f ∈ rowArrangement n,
    (if min (min f.x ((rowConfig n).room_length - (f.x + f.length)))
        (min f.y ((rowConfig n).room_width - (f.y + f.width))) < 1 / 10
      then (5 : ℚ) else 0) = (fun _ => (5 : ℚ)) f)]
  · simp only [rowArrangement, List.map_map, Function.comp_def, List.map_const',
      List.sum_replicate, List.length_range, nsmul_eq_mul]
    ring
  · obtain ⟨k, hk, rfl⟩ := List.mem_map.mp hf
    refine if_pos (lt_of_le_of_lt (le_trans (min_le_right _ _) (min_le_left _ _)) ?_)
    simp [rowItem]

/-- On a well-formed grid (non-negative truncated dimensions, at least one
cell) the evaluator returns the clamped baseline-plus-terms score. -/
theorem calculate_fitness_pos_grid (opt : GeneticLayoutOptimizer)
    (ind : List Furniture)
    (h1 : ¬ (pythonInt (opt.room_width * 20) < 0 ∨
      pythonInt (opt.room_length * 20) < 0))
    (h2 : ¬ ((pythonInt (opt.room_width * 20)).toNat *
      (pythonInt (opt.room_length * 20)).toNat = 0)) :
    calculate_fitness opt ind =
      some (pymax0 ((100 - obstaclePenalty opt ind - pairPenalty ind +
        wallBonus opt ind) +
        ((emptyCells opt ind (pythonInt (opt.room_width * 20)).toNat
            (pythonInt (opt.room_length * 20)).toNat : ℚ) /
          (((pythonInt (opt.room_width * 20)).toNat *
            (pythonInt (opt.room_length * 20)).toNat : ℕ) : ℚ)) * 30)) := by
  simp only [calculate_fitness]
  rw [if_neg h1, if_neg h2]

/-- The fitness of the row arrangement is at least `100 + 5 n`. -/
theorem calculate_fitness_row (n : ℕ) (hn : 1 ≤ n) :
    ∃ q, calculate_fitness (rowConfig n) (rowArrangement n) = some q ∧
      100 + 5 * (n : ℚ) ≤ q := by
  have hw : pythonInt ((rowConfig n).room_width * 20) = ((20 : ℕ) : ℤ) := by
    rw [show (rowConfig n).room_width * 20 = ((20 : ℕ) : ℚ) by norm_num [rowConfig]]
    exact pythonInt_natCast 20
  have hl : pythonInt ((rowConfig n).room_length * 20) = ((20 * n : ℕ) : ℤ) := by
    rw [show (rowConfig n).room_length * 20 = ((20 * n : ℕ) : ℚ) by
      push_cast [rowConfig]; ring]
    exact pythonInt_natCast (20 * n)
  refine ⟨_, calculate_fitness_pos_grid (rowConfig n) (rowArrangement n)
    (by rw [hw, hl]; omega) (by rw [hw, hl]; simp only [Int.toNat_natCast]; omega),
    ?_⟩
  rw [obstaclePenalty_of_no_elems _ _ rfl,
    pairPenalty_of_no_overlap _ (rowArrangement_pairwise n),
    rowArrangement_wallBonus]
  refine le_trans ?_ (le_pymax0 _)
  have hwalk : (0 : ℚ) ≤ (emptyCells (rowConfig n) (rowArrangement n)
      (pythonInt ((rowConfig n).room_width * 20)).toNat
      (pythonInt ((rowConfig n).room_length * 20)).toNat : ℚ) /
      (((pythonInt ((rowConfig n).room_width * 20)).toNat *
        (pythonInt ((rowConfig n).room_length * 20)).toNat : ℕ) : ℚ) * 30 := by
    positivity
  linarith

/-- C3: every fitness value the evaluator returns is non-negative (the
final score is clamped below at 0), and the scores are unbounded above:
for every bound there is a configuration and arrangement whose fitness
exceeds it. -/
theorem fitness_nonneg_and_unbounded :
    (∀ (opt : GeneticLayoutOptimizer) (ind : List Furniture) (q : ℚ),
      calculate_fitness opt ind = some q → 0 ≤ q) ∧
    (∀ B : ℚ, ∃ (opt : GeneticLayoutOptimizer) (ind : List Furniture) (q : ℚ),
      calculate_fitness opt ind = some q ∧ B < q) := by
  constructor
  · intro opt ind q h
    simp only [calculate_fitness] at h
    split at h
    · exact absurd h (by simp)
    · split at h
      · injection h with h2
        exact h2 ▸ le_rfl
      · injection h with h2
        exact h2 ▸ pymax0_nonneg _
  · intro B
    obtain ⟨q, hq, hge⟩ := calculate_fitness_row (⌈B⌉₊ + 1) (by omega)
    refine ⟨_, _, q, hq, lt_of_lt_of_le ?_ hge⟩
    have hB := Nat.le_ceil B
    push_cast
    linarith

/-- Witness for C3: the evaluator on an empty arrangement in a 0.1 × 0.1
room returns 130, which is non-negative. -/
theorem fitness_nonneg_witness :
    calculate_fitness ⟨1 / 10, 1 / 10, [], [], 0, 0, 0, 0⟩ [] = some 130 ∧
      (0 : ℚ) ≤ 130 :=
  ⟨by with_unfolding_all decide,
    fitness_nonneg_and_unbounded.1 ⟨1 / 10, 1 / 10, [], [], 0, 0, 0, 0⟩
      [] 130 (by with_unfolding_all decide)⟩

/-- The ambient random source (`random` module), as an abstract oracle:
`rand t` is the `t`-th value produced by `random.random()`-style draws
(always in `[0,1)`), and `sample t n k` is the index list produced by a
`random.sample(range(n), k)` call at time `t` (defined, duplicate-free
and in range whenever `k ≤ n`; with `k > n` the call raises instead).
Each primitive call consumes one tick of the shared counter. -/
structure Oracle where
  rand : ℕ → ℚ
  sample : ℕ → ℕ → ℕ → List ℕ
  rand_mem : ∀ t, 0 ≤ rand t ∧ rand t < 1
  sample_spec : ∀ t n k, k ≤ n →
    (sample t n k).length = k ∧ (sample t n k).Nodup ∧
      ∀ i ∈ sample t n k, i < n

/-- One `random.random()` call. -/
def randomRandom (o : Oracle) : StateM ℕ ℚ := fun t => (o.rand t, t + 1)

/-- One `random.uniform(a, b)` call: CPython computes
`a + (b - a) * random()`, also when `b < a` (the inverted range is drawn
from silently). -/
def randomUniform (o : Oracle) (a b : ℚ) : StateM ℕ ℚ :=
  fun t => (a + (b - a) * o.rand t, t + 1)

/-- One `random.sample(range(n), k)` call; `none` models the
`ValueError` raised when `k > n`. -/
def randomSampleIdx (o : Oracle) (n k : ℕ) : StateM ℕ (Option (List ℕ)) :=
  fun t => (if k ≤ n then some (o.sample t n k) else none, t + 1)

/-- Left-to-right effectful map, exactly the order of a Python `for`
loop that appends to an accumulator list. -/
def mapState {α β : Type} (g : α → StateM ℕ β) : List α → StateM ℕ (List β)
  | [] => pure []
  | a :: rest => do
    let b ← g a
    let bs ← mapState g rest
    pure (b :: bs)

/-- Per-item body of `initialize_population` (lines 32-45): deep-copy the
catalog item, rotate it with probability 1/2 (`random.random() > 0.5`),
then draw `x` from `uniform(0, room_length - length)` and `y` from
`uniform(0, room_width - width)`.  No validation: an oversized item
produces an inverted range, not an error. -/
def initItem (o : Oracle) (opt : GeneticLayoutOptimizer) (f : Furniture) :
    StateM ℕ Furniture := do
  let r ← randomRandom o
  let fc := if r > 1 / 2 then rotate f else f
  let x ← randomUniform o 0 (opt.room_length - fc.length)
  let y ← randomUniform o 0 (opt.room_width - fc.width)
  pure (set_position fc x y)

/-- One individual of the initial population. -/
def init_individual (o : Oracle) (opt : GeneticLayoutOptimizer) :
    StateM ℕ (List Furniture) :=
  mapState (initItem o opt) opt.furniture_list

/-- `GeneticLayoutOptimizer.initialize_population` (lines 24-49). -/
def init_population (o : Oracle) (opt : GeneticLayoutOptimizer) :
    StateM ℕ (List (List Furniture)) :=
  mapState (fun _ => init_individual o opt) (List.range opt.population_size)

/-- `np.argmax` over a running prefix: index of the first maximum. -/
def argmaxAux : List ℚ → ℕ → ℕ → ℚ → ℕ
  | [], _, bi, _ => bi
  | q :: rest, i, bi, bq =>
    if bq < q then argmaxAux rest (i + 1) i q else argmaxAux rest (i + 1) bi bq

/-- `np.argmax`: index of the first maximal entry.  (`np.argmax([])`
raises; callers guard for emptiness, the `[]` equation is unreachable.) -/
def argmaxIdx : List ℚ → ℕ
  | [] => 0
  | q :: rest => argmaxAux rest 1 0 q

/-- One tournament of `select_parents` (lines 128-135): sample 3 distinct
indices (hard-coded `tournament_size = 3`), keep the sampled individual
with the first-highest fitness. -/
def tournamentSelect (o : Oracle) (pop : List (List Furniture))
    (scores : List ℚ) : StateM ℕ (Option (List Furniture)) := do
  let s ← randomSampleIdx o pop.length 3
  match s with
  | none => pure none
  | some idxs =>
    let tf := idxs.map (fun i => scores.getD i 0)
    pure (some (pop.getD (idxs.getD (argmaxIdx tf) 0) []))

/-- `GeneticLayoutOptimizer.select_parents` (lines 123-137): two
independent tournaments; a raise in the first aborts before the second. -/
def select_parents (o : Oracle) (pop : List (List Furniture))
    (scores : List ℚ) : StateM ℕ (Option (List Furniture × List Furniture)) := do
  let p1 ← tournamentSelect o pop scores
  match p1 with
  | none => pure none
  | some a =>
    let p2 ← tournamentSelect o pop scores
    match p2 with
    | none => pure none
    | some b => pure (some (a, b))

/-- A concrete oracle: every `random()` draw is 1/2 and every sample is
the first `k` indices. -/
def halfOracle : Oracle where
  rand := fun _ => 1 / 2
  sample := fun _ _ k => List.range k
  rand_mem := fun _ => by norm_num
  sample_spec := fun _ n k hk =>
    ⟨List.length_range k, List.nodup_range k,
      fun i hi => lt_of_lt_of_le (List.mem_range.mp hi) hk⟩

/-- C10: parent selection runs tournaments of exactly 3 distinct sampled
indices, and is well-defined only for populations of at least 3: it
returns `none` (the `random.sample` raise) exactly when the population
has fewer than 3 members, and with at least 3 members the sample is a
defined list of 3 distinct in-range indices. -/
theorem select_parents_requires_three (o : Oracle)
    (pop : List (List Furniture)) (scores : List ℚ) (t : ℕ) :
    (((select_parents o pop scores).run t).1 = none ↔ pop.length < 3) ∧
    (3 ≤ pop.length → ∃ idxs : List ℕ,
      ((randomSampleIdx o pop.length 3).run t).1 = some idxs ∧
      idxs.length = 3 ∧ idxs.Nodup ∧ ∀ i ∈ idxs, i < pop.length) := by
  constructor
  · by_cases h : 3 ≤ pop.length
    · simp only [select_parents, tournamentSelect, randomSampleIdx, StateT.run,
        bind, StateT.bind, pure, StateT.pure, if_pos h]
      constructor
      · intro hcon
        exact absurd hcon (by simp)
      · intro hcon
        omega
    · simp only [select_parents, tournamentSelect, randomSampleIdx, StateT.run,
        bind, StateT.bind, pure, StateT.pure, if_neg h]
      constructor
      · intro _
        omega
      · intro _
        trivial
  · intro h
    refine ⟨o.sample t pop.length 3, ?_, o.sample_spec t pop.length 3 h⟩
    simp [randomSampleIdx, StateT.run, if_pos h]

/-- Witness for C10: with a population of exactly 3, the sample is
defined, has 3 distinct members, all in range. -/
theorem select_parents_requires_three_witness :
    ∃ idxs : List ℕ,
      ((randomSampleIdx halfOracle 3 3).run 0).1 = some idxs ∧
      idxs.length = 3 ∧ idxs.Nodup ∧ ∀ i ∈ idxs, i < 3 :=
  (select_parents_requires_three halfOracle [[], [], []] [0, 0, 0] 0).2
    (by decide)

/-- A configuration whose only catalog item (2 wide, 10 long) cannot fit
the 5 × 5 room along the length axis. -/
def oversizedConfig : GeneticLayoutOptimizer :=
  ⟨5, 5, [⟨"wardrobe", 2, 10, true, 0, 0, 0⟩], [], 1, 1, 1 / 5, 1⟩

/-- C7 fails on the code: no validation rejects an item larger than the
room.  `initialize_population` silently draws the x-coordinate from the
inverted range `uniform(0, 5 - 10)`, here producing the out-of-room
position `x = -5/2` instead of raising a configuration error. -/
theorem init_population_no_validation :
    ((init_population halfOracle oversizedConfig).run 0).1 =
      [[⟨"wardrobe", 2, 10, true, -5 / 2, 3 / 2, 0⟩]] ∧
    ((-5 / 2 : ℚ) < 0 ∧ ¬ ((-5 / 2 : ℚ) + 10 ≤ oversizedConfig.room_length)) := by
  constructor
  · with_unfolding_all decide
  · constructor
    · norm_num
    · norm_num [oversizedConfig]

/-- `GeneticLayoutOptimizer.crossover` (lines 139-150): per catalog slot a
fresh coin decides which parent's item is deep-copied.  Parents are
index-aligned by construction, so simultaneous recursion is faithful. -/
def crossover (o : Oracle) :
    List Furniture → List Furniture → StateM ℕ (List Furniture)
  | [], _ => pure []
  | _ :: _, [] => pure []
  | f1 :: r1, f2 :: r2 => do
    let r ← randomRandom o
    let rest ← crossover o r1 r2
    pure ((if r < 1 / 2 then f1 else f2) :: rest)

/-- Per-item body of `mutate` (lines 154-163): with probability
`mutation_rate` redraw the position (two `uniform` calls), then with
independent probability `mutation_rate` rotate. -/
def mutateItem (o : Oracle) (opt : GeneticLayoutOptimizer) (f : Furniture) :
    StateM ℕ Furniture := do
  let r1 ← randomRandom o
  let f1 ←
    if r1 < opt.mutation_rate then do
      let x ← randomUniform o 0 (opt.room_length - f.length)
      let y ← randomUniform o 0 (opt.room_width - f.width)
      pure (set_position f x y)
    else pure f
  let r2 ← randomRandom o
  pure (if r2 < opt.mutation_rate then rotate f1 else f1)

/-- `GeneticLayoutOptimizer.mutate` (lines 152-165). -/
def mutate (o : Oracle) (opt : GeneticLayoutOptimizer)
    (ind : List Furniture) : StateM ℕ (List Furniture) :=
  mapState (mutateItem o opt) ind

/-- Comparison modelling `np.argsort` as a *stable* ascending sort: order
indices by score, ties broken by original index. -/
def argLE (scores : List ℚ) (i j : ℕ) : Prop :=
  scores.getD i 0 < scores.getD j 0 ∨
    (scores.getD i 0 = scores.getD j 0 ∧ i ≤ j)

instance (scores : List ℚ) : DecidableRel (argLE scores) := fun i j =>
  inferInstanceAs (Decidable (_ ∨ _))

instance (scores : List ℚ) : IsTotal ℕ (argLE scores) where
  total i j := by
    unfold argLE
    rcases lt_trichotomy (scores.getD i 0) (scores.getD j 0) with h | h | h
    · exact Or.inl (Or.inl h)
    · rcases le_total i j with hij | hij
      · exact Or.inl (Or.inr ⟨h, hij⟩)
      · exact Or.inr (Or.inr ⟨h.symm, hij⟩)
    · exact Or.inr (Or.inl h)

instance (scores : List ℚ) : IsTrans ℕ (argLE scores) where
  trans a b c hab hbc := by
    unfold argLE at *
    rcases hab with h1 | ⟨h1, h1'⟩ <;> rcases hbc with h2 | ⟨h2, h2'⟩
    · exact Or.inl (h1.trans h2)
    · exact Or.inl (h2 ▸ h1)
    · exact Or.inl (h1 ▸ h2)
    · exact Or.inr ⟨h1.trans h2, h1'.trans h2'⟩

/-- Model of `np.argsort(fitness_scores)` (line 195): a stable ascending
argsort (on the small arrays used here numpy's introsort is an insertion
sort, which is stable, so equal scores keep their original index order). -/
def argsortStable (scores : List ℚ) : List ℕ :=
  List.insertionSort (argLE scores) (List.range scores.length)

/-- `np.argsort(fitness_scores)[::-1][:elitism_count]` (lines 195-197). -/
def eliteIndices (c : ℕ) (scores : List ℚ) : List ℕ :=
  ((argsortStable scores).reverse).take c

/-- C6 fails on the code: with two equally fit individuals and one elite
slot, elitism keeps index 1, the *later* slot — the reversal of the
ascending argsort breaks ties toward the later original index, not the
earlier one. -/
theorem elitism_tie_prefers_later_slot :
    eliteIndices 1 [(5 : ℚ), 5] = [1] ∧ eliteIndices 1 [(5 : ℚ), 5] ≠ [0] := by
  constructor
  · with_unfolding_all decide
  · with_unfolding_all decide

/-- C6 amended: elitism selects the top `elitism_count` indices from the
reversed stable ascending argsort: the selected index sequence is
strictly descending in (score, index) — equal scores are ordered by
*descending* original index, so the later slot wins ties; the full
reversed argsort is a permutation of all population indices. -/
theorem elitism_sorted_desc (scores : List ℚ) (c : ℕ) :
    (eliteIndices c scores).Pairwise (fun i j =>
      scores.getD j 0 < scores.getD i 0 ∨
        (scores.getD i 0 = scores.getD j 0 ∧ j < i)) ∧
    ((argsortStable scores).reverse).Pairwise (fun i j =>
      scores.getD j 0 < scores.getD i 0 ∨
        (scores.getD i 0 = scores.getD j 0 ∧ j < i)) ∧
    (argsortStable scores).Perm (List.range scores.length) := by
  have hperm : (argsortStable scores).Perm (List.range scores.length) :=
    List.perm_insertionSort _ _
  have hnd : (argsortStable scores).Nodup :=
    hperm.nodup_iff.mpr (List.nodup_range _)
  have hsorted : (argsortStable scores).Pairwise (argLE scores) :=
    List.sorted_insertionSort _ _
  have hrev : ((argsortStable scores).reverse).Pairwise
      (fun i j => argLE scores j i) :=
    (List.pairwise_reverse).mpr hsorted
  have hrevnd : ((argsortStable scores).reverse).Pairwise (fun i j => i ≠ j) :=
    List.nodup_reverse.mpr hnd
  have key : ((argsortStable scores).reverse).Pairwise (fun i j =>
      scores.getD j 0 < scores.getD i 0 ∨
        (scores.getD i 0 = scores.getD j 0 ∧ j < i)) := by
    refine List.Pairwise.imp ?_ (hrev.and hrevnd)
    rintro a b ⟨hab, hne⟩
    rcases hab with h | ⟨h, h'⟩
    · exact Or.inl h
    · exact Or.inr ⟨h.symm, lt_of_le_of_ne h' (Ne.symm hne)⟩
  exact ⟨List.Pairwise.sublist (List.take_sublist c _) key, key, hperm⟩

/-- `fitness_scores = [self.calculate_fitness(ind) for ind in population]`
(line 178); `none` if any evaluation raises. -/
def fitnessScores (opt : GeneticLayoutOptimizer) :
    List (List Furniture) → Option (List ℚ)
  | [] => some []
  | ind :: rest =>
    match calculate_fitness opt ind, fitnessScores opt rest with
    | some q, some qs => some (q :: qs)
    | _, _ => none

/-- Loop state of `GeneticLayoutOptimizer.optimize` (lines 167-217):
current population, best-ever individual (`None` until a strictly
positive score appears), best-ever fitness, `best_fitness_history`, and
the oracle counter. -/
structure GAState where
  population : List (List Furniture)
  best_individual : Option (List Furniture)
  best_fitness : ℚ
  history : List ℚ
  time : ℕ
  deriving DecidableEq, Repr

/-- Lines 181-184: replace the best-ever individual and fitness only when
the generation's maximum (at `np.argmax`, the first maximal index)
strictly exceeds the recorded best. -/
def updateBest (s : GAState) (scores : List ℚ) :
    Option (List Furniture) × ℚ :=
  let mi := argmaxIdx scores
  let mf := scores.getD mi 0
  if s.best_fitness < mf then (some (s.population.getD mi []), mf)
  else (s.best_individual, s.best_fitness)

/-- One iteration of the breeding `while` body (lines 200-210): select
two parents, crossover, mutate. -/
def breedChild (o : Oracle) (opt : GeneticLayoutOptimizer)
    (pop : List (List Furniture)) (scores : List ℚ) :
    StateM ℕ (Option (List Furniture)) := do
  let ps ← select_parents o pop scores
  match ps with
  | none => pure none
  | some (p1, p2) => do
    let c ← crossover o p1 p2
    let c2 ← mutate o opt c
    pure (some c2)

/-- The breeding `while` loop (lines 200-210), counted down by the number
of children still needed (the loop adds exactly one child per pass). -/
def breedMany (o : Oracle) (opt : GeneticLayoutOptimizer)
    (pop : List (List Furniture)) (scores : List ℚ) :
    ℕ → StateM ℕ (Option (List (List Furniture)))
  | 0 => pure (some [])
  | n + 1 => do
    let c ← breedChild o opt pop scores
    match c with
    | none => pure none
    | some child => do
      let rest ← breedMany o opt pop scores n
      match rest with
      | none => pure none
      | some kids => pure (some (child :: kids))

/-- One generation of the loop (lines 176-212): score the population
(`np.argmax` raises on an empty one), update the best-ever pair, append
the (possibly unchanged) best-ever fitness to the history, then build the
next population from the elites (the indexing raises if `elitism_count`
exceeds the population size) plus bred children up to
`population_size`. -/
def step (o : Oracle) (opt : GeneticLayoutOptimizer) (s : GAState) :
    Option GAState :=
  match fitnessScores opt s.population with
  | none => none
  | some scores =>
    if scores = [] then none
    else
      let bb := updateBest s scores
      if opt.elitism_count ≤ (argsortStable scores).length then
        let elites := (eliteIndices opt.elitism_count scores).map
          (fun i => s.population.getD i [])
        match (breedMany o opt s.population scores
            (opt.population_size - elites.length)).run s.time with
        | (none, _) => none
        | (some kids, t2) =>
          some ⟨elites ++ kids, bb.1, bb.2, s.history ++ [bb.2], t2⟩
      else none

/-- Lines 169-174: initial population, best-ever sentinel 0, no best
individual, empty history. -/
def initState (o : Oracle) (opt : GeneticLayoutOptimizer) : GAState :=
  let pr := (init_population o opt).run 0
  ⟨pr.1, none, 0, [], pr.2⟩

/-- `n` generations of the loop; `none` if any of them raises. -/
def runSteps (o : Oracle) (opt : GeneticLayoutOptimizer) :
    ℕ → GAState → Option GAState
  | 0, s => some s
  | n + 1, s =>
    match step o opt s with
    | none => none
    | some s2 => runSteps o opt n s2

/-- `GeneticLayoutOptimizer.optimize` (lines 167-217): run all
`generations` generations from the initial state; the returned state
carries `best_individual`, `best_fitness` and `best_fitness_history`. -/
def optimize (o : Oracle) (opt : GeneticLayoutOptimizer) : Option GAState :=
  runSteps o opt opt.generations (initState o opt)

/-- The loop state just before generation `g`. -/
def stateAt (o : Oracle) (opt : GeneticLayoutOptimizer) (g : ℕ) :
    Option GAState :=
  runSteps o opt g (initState o opt)

/-- The fitness scores computed in generation `g`. -/
def scoresAt (o : Oracle) (opt : GeneticLayoutOptimizer) (g : ℕ) :
    Option (List ℚ) :=
  match stateAt o opt g with
  | none => none
  | some s => fitnessScores opt s.population

/-- The best-ever fitness never decreases across one generation. -/
theorem updateBest_le (s : GAState) (scores : List ℚ) :
    s.best_fitness ≤ (updateBest s scores).2 := by
  simp only [updateBest]
  split
  · next h => exact le_of_lt h
  · exact le_rfl

/-- A successful generation appends exactly the new best-ever fitness to
the history and never lowers the best-ever fitness. -/
theorem step_history (o : Oracle) (opt : GeneticLayoutOptimizer)
    (s s2 : GAState) (h : step o opt s = some s2) :
    s2.history = s.history ++ [s2.best_fitness] ∧
      s.best_fitness ≤ s2.best_fitness := by
  unfold step at h
  split at h
  · exact absurd h (by simp)
  · split at h
    · exact absurd h (by simp)
    · split at h
      · dsimp only at h
        split at h
        · exact absurd h (by simp)
        · injection h with h2
          rw [← h2]
          exact ⟨rfl, updateBest_le s _⟩
      · exact absurd h (by simp)

/-- History invariant carried across generations: the history is
non-decreasing and bounded by the current best-ever fitness. -/
def HistSorted (s : GAState) : Prop :=
  List.Chain' (· ≤ ·) s.history ∧ ∀ q ∈ s.history, q ≤ s.best_fitness

/-- One generation preserves the history invariant. -/
theorem step_histSorted (o : Oracle) (opt : GeneticLayoutOptimizer)
    (s s2 : GAState) (hs : step o opt s = some s2) (h : HistSorted s) :
    HistSorted s2 := by
  obtain ⟨hh, hb⟩ := step_history o opt s s2 hs
  obtain ⟨hc, hle⟩ := h
  constructor
  · rw [hh]
    refine List.chain'_append.mpr ⟨hc, List.chain'_singleton _, ?_⟩
    intro x hx y hy
    have hxm : x ∈ s.history := List.mem_of_mem_getLast? hx
    have hym : y = s2.best_fitness := by
      simpa using List.mem_of_mem_head? hy
    exact hym ▸ le_trans (hle x hxm) hb
  · intro q hq
    rw [hh] at hq
    rcases List.mem_append.mp hq with hq | hq
    · exact le_trans (hle q hq) hb
    · simp only [List.mem_singleton] at hq
      exact hq ▸ le_rfl

/-- Any number of generations preserves the history invariant. -/
theorem runSteps_histSorted (o : Oracle) (opt : GeneticLayoutOptimizer) :
    ∀ (n : ℕ) (s res : GAState), runSteps o opt n s = some res →
      HistSorted s → HistSorted res := by
  intro n
  induction n with
  | zero =>
    intro s res h hs
    injection h with h2
    exact h2 ▸ hs
  | succ n ih =>
    intro s res h hs
    unfold runSteps at h
    split at h
    · exact absurd h (by simp)
    · next s1 heq => exact ih s1 res h (step_histSorted o opt s s1 heq hs)

/-- Each successful generation grows the history by exactly one entry. -/
theorem runSteps_history_length (o : Oracle) (opt : GeneticLayoutOptimizer) :
    ∀ (n : ℕ) (s res : GAState), runSteps o opt n s = some res →
      res.history.length = s.history.length + n := by
  intro n
  induction n with
  | zero =>
    intro s res h
    injection h with h2
    rw [← h2]
    omega
  | succ n ih =>
    intro s res h
    unfold runSteps at h
    split at h
    · exact absurd h (by simp)
    · next s1 heq =>
      have h1 := (step_history o opt s s1 heq).1
      have h2 := ih s1 res h
      rw [h2, h1, List.length_append]
      simp only [List.length_singleton]
      omega

/-- C4: every generation appends the (possibly unchanged) best-ever
fitness — updated only on strict improvement — to the history, so for
every successful run the history has one entry per generation and is
non-decreasing across its entire length. -/
theorem best_fitness_history_monotone (o : Oracle)
    (opt : GeneticLayoutOptimizer) (res : GAState)
    (h : optimize o opt = some res) :
    List.Chain' (· ≤ ·) res.history ∧
    res.history.length = opt.generations ∧
    ∀ s s2 : GAState, step o opt s = some s2 →
      s2.history = s.history ++ [s2.best_fitness] ∧
        s.best_fitness ≤ s2.best_fitness := by
  refine ⟨?_, ?_, fun s s2 hs => step_history o opt s s2 hs⟩
  · exact (runSteps_histSorted o opt opt.generations _ res h
      ⟨List.chain'_nil, by simp [initState]⟩).1
  · have hl := runSteps_history_length o opt opt.generations _ res h
    simpa [initState] using hl

/-- A 0.1 × 0.1 room, empty catalog, population 3 kept entirely by
elitism, one generation. -/
def emptyCatalogConfig : GeneticLayoutOptimizer :=
  ⟨1 / 10, 1 / 10, [], [], 3, 1, 1 / 5, 3⟩

/-- The state `optimize` reaches on `emptyCatalogConfig` under the
constant oracle: the loop ran its one generation, each empty arrangement
scored 130 (baseline 100 + full walkability 30), and the best-ever pair
is the empty arrangement at 130. -/
def emptyCatalogResult : GAState := ⟨[[], [], []], some [], 130, [130], 0⟩

/-- Witness for C4 on a concrete one-generation run. -/
theorem best_fitness_history_monotone_witness :
    List.Chain' (· ≤ ·) emptyCatalogResult.history ∧
      emptyCatalogResult.history.length = emptyCatalogConfig.generations :=
  ⟨(best_fitness_history_monotone halfOracle emptyCatalogConfig
      emptyCatalogResult (by with_unfolding_all decide)).1,
    (best_fitness_history_monotone halfOracle emptyCatalogConfig
      emptyCatalogResult (by with_unfolding_all decide)).2.1⟩

/-- All results of an effectful map satisfy a pointwise guarantee. -/
theorem mapState_mem {α β : Type} (g : α → StateM ℕ β) (P : β → Prop)
    (hg : ∀ a t, P ((g a).run t).1) :
    ∀ (l : List α) (t : ℕ), ∀ b ∈ ((mapState g l).run t).1, P b := by
  intro l
  induction l with
  | nil =>
    intro t b hb
    simp [mapState, pure, StateT.pure, StateT.run] at hb
  | cons a rest ih =>
    intro t b hb
    have hrun : ((mapState g (a :: rest)).run t).1 =
        ((g a).run t).1 :: ((mapState g rest).run ((g a).run t).2).1 := rfl
    rw [hrun] at hb
    rcases List.mem_cons.mp hb with hb | hb
    · exact hb ▸ hg a t
    · exact ih _ b hb

/-- `getD` on a list whose members all equal the default. -/
theorem getD_of_all {α : Type} (l : List α) (d : α) (h : ∀ b ∈ l, b = d) :
    ∀ n : ℕ, l.getD n d = d := by
  induction l with
  | nil => intro n; cases n <;> rfl
  | cons a rest ih =>
    intro n
    cases n with
    | zero => exact h a (List.mem_cons_self a rest)
    | succ m => exact ih (fun b hb => h b (List.mem_cons_of_mem a hb)) m

/-- Both selected parents are population members fetched by `getD`. -/
theorem select_parents_shape (o : Oracle) (pop : List (List Furniture))
    (scores : List ℚ) (t : ℕ) (p1 p2 : List Furniture)
    (h : (((select_parents o pop scores).run t).1 = some (p1, p2))) :
    (∃ i, p1 = pop.getD i []) ∧ ∃ j, p2 = pop.getD j [] := by
  by_cases h3 : 3 ≤ pop.length
  · simp only [select_parents, tournamentSelect, randomSampleIdx, StateT.run,
      bind, StateT.bind, pure, StateT.pure, if_pos h3] at h
    injection h with h2
    injection h2 with ha hb
    exact ⟨⟨_, ha.symm⟩, ⟨_, hb.symm⟩⟩
  · simp only [select_parents, tournamentSelect, randomSampleIdx, StateT.run,
      bind, StateT.bind, pure, StateT.pure, if_neg h3] at h
    exact absurd h (by simp)

/-- On a population whose members are all empty, `select_parents` either
raises or yields the pair of empty parents. -/
theorem select_parents_empty_pop (o : Oracle) (pop : List (List Furniture))
    (scores : List ℚ) (t : ℕ)
    (hpop : ∀ i ∈ pop, i = ([] : List Furniture)) :
    (select_parents o pop scores).run t = (none, t + 1) ∨
    ∃ t2, (select_parents o pop scores).run t = (some ([], []), t2) := by
  by_cases h3 : 3 ≤ pop.length
  · right
    refine ⟨t + 1 + 1, ?_⟩
    simp only [select_parents, tournamentSelect, randomSampleIdx, StateT.run,
      bind, StateT.bind, pure, StateT.pure, if_pos h3]
    simp only [getD_of_all pop [] hpop]
  · left
    simp only [select_parents, tournamentSelect, randomSampleIdx, StateT.run,
      bind, StateT.bind, pure, StateT.pure, if_neg h3]

/-- A raising parent selection propagates through `breedChild`. -/
theorem breedChild_of_sel_none (o : Oracle) (opt : GeneticLayoutOptimizer)
    (pop : List (List Furniture)) (scores : List ℚ) (t t1 : ℕ)
    (hsel : (select_parents o pop scores).run t = (none, t1)) :
    (breedChild o opt pop scores).run t = (none, t1) := by
  simp only [breedChild, bind, StateT.bind, StateT.run]
  rw [show select_parents o pop scores t = (none, t1) from hsel]
  rfl

/-- Breeding from two empty parents produces the empty child (crossover
of empty lists, then an empty mutation pass), consuming no draws. -/
theorem breedChild_of_sel_empty (o : Oracle) (opt : GeneticLayoutOptimizer)
    (pop : List (List Furniture)) (scores : List ℚ) (t t1 : ℕ)
    (hsel : (select_parents o pop scores).run t = (some ([], []), t1)) :
    (breedChild o opt pop scores).run t = (some [], t1) := by
  simp only [breedChild, bind, StateT.bind, StateT.run]
  rw [show select_parents o pop scores t = (some ([], []), t1) from hsel]
  rfl

/-- On an all-empty population every bred child is empty. -/
theorem breedMany_empty (o : Oracle) (opt : GeneticLayoutOptimizer)
    (pop : List (List Furniture)) (scores : List ℚ)
    (hpop : ∀ i ∈ pop, i = ([] : List Furniture)) :
    ∀ (n t : ℕ) (kids : List (List Furniture)),
      (((breedMany o opt pop scores n).run t).1 = some kids) →
      ∀ k ∈ kids, k = [] := by
  intro n
  induction n with
  | zero =>
    intro t kids h k hk
    simp only [breedMany, pure, StateT.pure, StateT.run] at h
    injection h with h2
    rw [← h2] at hk
    simp at hk
  | succ n ih =>
    intro t kids h k hk
    rcases select_parents_empty_pop o pop scores t hpop with hsel | ⟨t2, hsel⟩
    · have hbc := breedChild_of_sel_none o opt pop scores t (t + 1) hsel
      have hnone : ((breedMany o opt pop scores (n + 1)).run t).1 = none := by
        simp only [breedMany, bind, StateT.bind, StateT.run]
        rw [show breedChild o opt pop scores t = (none, t + 1) from hbc]
        rfl
      rw [hnone] at h
      exact absurd h (by simp)
    · have hbc := breedChild_of_sel_empty o opt pop scores t t2 hsel
      rcases hin : (breedMany o opt pop scores n).run t2 with ⟨restOpt, t3⟩
      cases restOpt with
      | none =>
        have hrun : ((breedMany o opt pop scores (n + 1)).run t).1 = none := by
          simp only [breedMany, bind, StateT.bind, StateT.run, pure, StateT.pure,
            show breedChild o opt pop scores t = (some [], t2) from hbc,
            show breedMany o opt pop scores n t2 = (none, t3) from hin]
        rw [hrun] at h
        exact absurd h (by simp)
      | some rest =>
        have hrun : ((breedMany o opt pop scores (n + 1)).run t).1 =
            some ([] :: rest) := by
          simp only [breedMany, bind, StateT.bind, StateT.run, pure, StateT.pure,
            show breedChild o opt pop scores t = (some [], t2) from hbc,
            show breedMany o opt pop scores n t2 = (some rest, t3) from hin]
        rw [hrun] at h
        injection h with h2
        rw [← h2] at hk
        rcases List.mem_cons.mp hk with hk | hk
        · exact hk
        · exact ih t2 rest (by rw [hin]) k hk

/-- Run invariant for an empty catalog: every individual is the empty
arrangement and the best-ever individual is absent or empty. -/
def EmptyRun (s : GAState) : Prop :=
  (∀ i ∈ s.population, i = ([] : List Furniture)) ∧
    (s.best_individual = none ∨ s.best_individual = some [])

/-- The best-ever update keeps the previous individual or fetches a
population member by `getD`. -/
theorem updateBest_shape (s : GAState) (scores : List ℚ) :
    (updateBest s scores).1 = s.best_individual ∨
      ∃ i, (updateBest s scores).1 = some (s.population.getD i []) := by
  simp only [updateBest]
  split
  · exact Or.inr ⟨argmaxIdx scores, rfl⟩
  · exact Or.inl rfl

/-- One generation preserves the empty-catalog invariant. -/
theorem step_emptyRun (o : Oracle) (opt : GeneticLayoutOptimizer)
    (s s2 : GAState) (hs : step o opt s = some s2) (h : EmptyRun s) :
    EmptyRun s2 := by
  obtain ⟨hpop, hbest⟩ := h
  unfold step at hs
  split at hs
  · exact absurd hs (by simp)
  · split at hs
    · exact absurd hs (by simp)
    · dsimp only at hs
      split at hs
      · split at hs
        · exact absurd hs (by simp)
        · next kids t2 heq2 =>
          injection hs with h2
          constructor
          · intro i hi
            rw [← h2] at hi
            rcases List.mem_append.mp hi with hi | hi
            · rcases List.mem_map.mp hi with ⟨j, hj, rfl⟩
              exact getD_of_all _ _ hpop j
            · exact breedMany_empty o opt s.population _ hpop _ s.time kids
                (by rw [heq2]) i hi
          · rw [← h2]
            rcases updateBest_shape s _ with he | ⟨i, he⟩
            · dsimp only
              rw [he]
              exact hbest
            · dsimp only
              rw [he, getD_of_all _ _ hpop i]
              exact Or.inr rfl
      · exact absurd hs (by simp)

/-- With an empty catalog each initial individual is empty. -/
theorem init_individual_nil (o : Oracle) (opt : GeneticLayoutOptimizer)
    (hcat : opt.furniture_list = []) (t : ℕ) :
    (init_individual o opt).run t = ([], t) := by
  unfold init_individual
  rw [hcat]
  rfl

/-- With an empty catalog the initial state satisfies the invariant. -/
theorem initState_emptyRun (o : Oracle) (opt : GeneticLayoutOptimizer)
    (hcat : opt.furniture_list = []) : EmptyRun (initState o opt) := by
  constructor
  · intro i hi
    refine mapState_mem (fun _ => init_individual o opt)
      (fun b => b = ([] : List Furniture)) ?_ (List.range opt.population_size)
      0 i ?_
    · intro a t
      rw [init_individual_nil o opt hcat t]
    · exact hi
  · exact Or.inl rfl

/-- The whole loop preserves the empty-catalog invariant. -/
theorem runSteps_emptyRun (o : Oracle) (opt : GeneticLayoutOptimizer) :
    ∀ (n : ℕ) (s res : GAState), runSteps o opt n s = some res →
      EmptyRun s → EmptyRun res := by
  intro n
  induction n with
  | zero =>
    intro s res h hs
    injection h with h2
    exact h2 ▸ hs
  | succ n ih =>
    intro s res h hs
    unfold runSteps at h
    split at h
    · exact absurd h (by simp)
    · next s1 heq => exact ih s1 res h (step_emptyRun o opt s s1 heq hs)

/-- C8 amended: with an empty catalog the optimizer does not
short-circuit: the generational loop still runs all generations (one
history entry each); every individual of the final population is the
empty arrangement and the best-ever individual is `none` or the empty
arrangement, its fitness the computed score of an empty arrangement
rather than a reserved sentinel. -/
theorem empty_catalog_loop_runs (o : Oracle) (opt : GeneticLayoutOptimizer)
    (res : GAState) (hcat : opt.furniture_list = [])
    (h : optimize o opt = some res) :
    res.history.length = opt.generations ∧
    (res.best_individual = none ∨ res.best_individual = some []) ∧
    ∀ ind ∈ res.population, ind = ([] : List Furniture) := by
  have h1 := runSteps_history_length o opt opt.generations _ res h
  have h2 := runSteps_emptyRun o opt opt.generations _ res h
    (initState_emptyRun o opt hcat)
  exact ⟨by simpa [initState] using h1, h2.2, h2.1⟩

/-- Witness for the amended C8 on a concrete one-generation run. -/
theorem empty_catalog_loop_runs_witness :
    emptyCatalogResult.history.length = emptyCatalogConfig.generations ∧
    (emptyCatalogResult.best_individual = none ∨
      emptyCatalogResult.best_individual = some []) ∧
    ∀ ind ∈ emptyCatalogResult.population, ind = ([] : List Furniture) :=
  empty_catalog_loop_runs halfOracle emptyCatalogConfig emptyCatalogResult rfl
    (by with_unfolding_all decide)

/-- C8 as stated is false on the code: on an empty catalog `optimize`
does not short-circuit — its one generation runs (the history gets an
entry) and the returned fitness is the empty arrangement's computed
score 130 (baseline 100 plus full walkability 30), not a sentinel such
as the initial 0. -/
theorem empty_catalog_no_short_circuit :
    optimize halfOracle emptyCatalogConfig = some emptyCatalogResult ∧
    emptyCatalogResult.history = [130] ∧
    emptyCatalogResult.best_fitness = 130 ∧ (130 : ℚ) ≠ 0 :=
  ⟨by with_unfolding_all decide, rfl, rfl, by norm_num⟩

/-- `updateBest` does not fire when every score is 0 and the recorded
best is the sentinel 0. -/
theorem updateBest_zero (s : GAState) (scores : List ℚ)
    (hz : ∀ q ∈ scores, q = 0) (hb : s.best_individual = none)
    (hf : s.best_fitness = 0) :
    updateBest s scores = (none, 0) := by
  simp only [updateBest]
  rw [getD_of_all scores 0 hz, hf, if_neg (lt_irrefl 0), hb]

/-- One all-zero generation keeps the best-ever pair at `(None, 0)`. -/
theorem step_zero (o : Oracle) (opt : GeneticLayoutOptimizer) (s s2 : GAState)
    (hs : step o opt s = some s2)
    (hz : ∀ qs, fitnessScores opt s.population = some qs → ∀ q ∈ qs, q = 0)
    (hb : s.best_individual = none) (hf : s.best_fitness = 0) :
    s2.best_individual = none ∧ s2.best_fitness = 0 := by
  unfold step at hs
  split at hs
  · exact absurd hs (by simp)
  · next scores heq =>
    split at hs
    · exact absurd hs (by simp)
    · dsimp only at hs
      split at hs
      · split at hs
        · exact absurd hs (by simp)
        · injection hs with h2
          have hu := updateBest_zero s scores (hz scores heq) hb hf
          rw [← h2]
          dsimp only
          rw [hu]
          exact ⟨rfl, rfl⟩
      · exact absurd hs (by simp)

/-- Any number of all-zero generations keeps the best-ever pair at
`(None, 0)`. -/
theorem runSteps_zero (o : Oracle) (opt : GeneticLayoutOptimizer) :
    ∀ (n : ℕ) (s res : GAState), runSteps o opt n s = some res →
      (∀ (g : ℕ), g < n → ∀ s2, runSteps o opt g s = some s2 →
        ∀ qs, fitnessScores opt s2.population = some qs → ∀ q ∈ qs, q = 0) →
      s.best_individual = none → s.best_fitness = 0 →
      res.best_individual = none ∧ res.best_fitness = 0 := by
  intro n
  induction n with
  | zero =>
    intro s res h _ hb hf
    injection h with h2
    exact h2 ▸ ⟨hb, hf⟩
  | succ n ih =>
    intro s res h hz hb hf
    unfold runSteps at h
    split at h
    · exact absurd h (by simp)
    · next s1 heq =>
      have hz0 := hz 0 (Nat.succ_pos n) s rfl
      obtain ⟨hb1, hf1⟩ := step_zero o opt s s1 heq hz0 hb hf
      refine ih s1 res h ?_ hb1 hf1
      intro g hg s2 hrun qs hqs
      refine hz (g + 1) (by omega) s2 ?_ qs hqs
      rw [show runSteps o opt (g + 1) s = runSteps o opt g s1 from by
        rw [runSteps, heq]]
      exact hrun

/-- C9: if every individual in every generation scores exactly 0 (the
clamp floor, which equals the best-ever sentinel), the strict-improvement
update never fires, and `optimize` returns no best arrangement
(`best_individual = None`) together with best fitness 0. -/
theorem all_zero_scores_best_none (o : Oracle) (opt : GeneticLayoutOptimizer)
    (res : GAState) (h : optimize o opt = some res)
    (hz : ∀ g, g < opt.generations → ∀ qs, scoresAt o opt g = some qs →
      ∀ q ∈ qs, q = 0) :
    res.best_individual = none ∧ res.best_fitness = 0 := by
  refine runSteps_zero o opt opt.generations (initState o opt) res h ?_ rfl rfl
  intro g hg s2 hrun qs hqs
  refine hz g hg qs ?_
  unfold scoresAt stateAt
  rw [hrun]
  exact hqs

/-- A room whose rasterized grid has zero cells (width 0.01 truncates to
0 rows): every arrangement takes the `0/0 = nan`, `max(0, nan) = 0`
path, so every score of every generation is exactly 0. -/
def zeroAreaConfig : GeneticLayoutOptimizer :=
  ⟨1 / 10, 1 / 100, [], [], 3, 1, 1 / 5, 3⟩

/-- Witness for C9 on the zero-area room: the run succeeds, every score
is 0, and the result is no arrangement with best fitness 0. -/
theorem all_zero_scores_best_none_witness :
    ∃ res, optimize halfOracle zeroAreaConfig = some res ∧
      res.best_individual = none ∧ res.best_fitness = 0 := by
  refine ⟨⟨[[], [], []], none, 0, [0], 0⟩, by with_unfolding_all decide, ?_⟩
  refine all_zero_scores_best_none halfOracle zeroAreaConfig _
    (by with_unfolding_all decide) ?_
  intro g hg qs hqs
  have hg0 : g = 0 := by
    have hgen : zeroAreaConfig.generations = 1 := rfl
    omega
  subst hg0
  have hsc : scoresAt halfOracle zeroAreaConfig 0 = some [0, 0, 0] := by
    with_unfolding_all decide
  rw [hsc] at hqs
  injection hqs with h2
  subst h2
  intro q hq
  simpa using hq
